import Mathlib

/-!
Verification of the ObjectSocket / EnrollmentClient bundle
(`object-socket.enrollment.bundle.js`).

The development shallowly embeds the bundle's pure functions (the protocol
adapter's `encode`/`decode`, `defaultBackoff`) and its stateful machinery
(pending-request table, close/reconnect handling, the `waitFor` and
`_sendAndWait` combinators, handler dispatch) as executable Lean definitions,
and proves the specified properties about them.

JavaScript values flowing through the adapter are modelled by `JVal`
(JSON values: null, booleans, integers, strings, arrays, objects; numbers are
restricted to integers, which covers every value the protocol exchanges).
An absent object property is `Option.none`; JS coercions (`== 0`, `> 0`,
truthiness) are modelled explicitly. String-to-number coercion is modelled
for optionally-signed decimal integer literals (`ToNumber` of other strings
is treated as NaN).
-/

namespace ColdWallet

/-!
String primitives. The JS string methods used by the bundle (`trim`,
`toUpperCase`, `startsWith`, `endsWith`, `slice`, regex character-class
tests) are modelled over the character list of a `String`, so that every
definition reduces inside the kernel on concrete inputs.
-/

/-- ASCII whitespace as removed by `String.prototype.trim`. -/
def wsChar (c : Char) : Bool :=
  c == ' ' || c == '\t' || c == '\n' || c == '\r' || c == '\x0b' || c == '\x0c'

/-- `String.prototype.trim` (ASCII whitespace). -/
def jsTrim (s : String) : String :=
  .mk (((s.data.dropWhile wsChar).reverse.dropWhile wsChar).reverse)

/-- `String.prototype.toUpperCase` (ASCII letters). -/
def jsToUpper (s : String) : String :=
  .mk (s.data.map Char.toUpper)

/-- Character-list test that `pre` begins the list. -/
def listPref : List Char → List Char → Bool
  | _, [] => true
  | [], _ :: _ => false
  | c :: cs, p :: ps => (c == p) && listPref cs ps

/-- `String.prototype.startsWith`. -/
def strStartsWith (s pre : String) : Bool := listPref s.data pre.data

/-- `String.prototype.endsWith`. -/
def strEndsWith (s suf : String) : Bool := listPref s.data.reverse suf.data.reverse

/-- `String.prototype.slice(n)` for a nonnegative start index. -/
def strDrop (s : String) (n : Nat) : String := .mk (s.data.drop n)

/-- `String.prototype.length` (code points; identical on the ASCII protocol
markers). -/
def strLen (s : String) : Nat := s.data.length

/-- Every character satisfies the test (regex character-class matching). -/
def strAll (s : String) (f : Char → Bool) : Bool := s.data.all f

/-- Numeric value of a digit string. -/
def natOfDigits (cs : List Char) : Nat :=
  cs.foldl (fun n c => n * 10 + (c.toNat - 48)) 0

/-- JSON value as produced by `JSON.parse`. -/
inductive JVal where
  | jnull : JVal
  | jbool (b : Bool) : JVal
  | jnum (n : Int) : JVal
  | jstr (s : String) : JVal
  | jarr (elems : List JVal) : JVal
  | jobj (fields : List (String × JVal)) : JVal

namespace JVal

/-- First-match lookup of a key in an object field list (JS objects have
unique keys after `JSON.parse`, last-wins duplicates are already resolved). -/
def lookupField : List (String × JVal) → String → Option JVal
  | [], _ => none
  | (k, v) :: rest, key => if k == key then some v else lookupField rest key

/-- Optional-chaining property access `v?.k`: never throws; `undefined`
(modelled as `none`) on null and on primitives without such a property. -/
def getFieldOpt (v : JVal) (k : String) : Option JVal :=
  match v with
  | .jobj fs => lookupField fs k
  | _ => none

/-- Plain property access `v.k`: throws a TypeError when `v` is null,
otherwise like optional chaining. -/
def getField (v : JVal) (k : String) : Except String (Option JVal) :=
  match v with
  | .jnull => .error ("TypeError: cannot read " ++ k ++ " of null")
  | .jobj fs => .ok (lookupField fs k)
  | _ => .ok none

/-- JS `ToNumber` on a string, restricted to optionally-signed decimal
integer literals after trimming; `none` models NaN. The empty (or
all-whitespace) string coerces to 0. -/
def strToNumber (s : String) : Option Int :=
  match (jsTrim s).data with
  | [] => some 0
  | '-' :: ds => if ds ≠ [] ∧ ds.all Char.isDigit then some (-(natOfDigits ds : Int)) else none
  | '+' :: ds => if ds ≠ [] ∧ ds.all Char.isDigit then some (natOfDigits ds : Int) else none
  | ds => if ds.all Char.isDigit then some (natOfDigits ds : Int) else none

/-- Comma-join of already-converted parts, as in `Array.prototype.join`. -/
def joinComma : List String → String
  | [] => ""
  | [x] => x
  | x :: xs => .mk (x.data ++ ',' :: (joinComma xs).data)

mutual

/-- String conversion of a value as used by `Array.prototype.join` for an
element (null and undefined join as the empty string). -/
def joinElemToString : JVal → String
  | .jnull => ""
  | .jbool b => if b then "true" else "false"
  | .jnum n => toString n
  | .jstr s => s
  | .jarr es => joinComma (joinElems es)
  | .jobj _ => "[object Object]"

/-- Join-conversion of each element of an array. -/
def joinElems : List JVal → List String
  | [] => []
  | x :: xs => joinElemToString x :: joinElems xs

end

/-- JS `ToPrimitive` with number hint, as a numeric value (`none` = NaN).
Arrays convert via their joined string; plain objects give NaN. -/
def toNumberVal : JVal → Option Int
  | .jnull => some 0
  | .jbool b => some (if b then 1 else 0)
  | .jnum n => some n
  | .jstr s => strToNumber s
  | .jarr es => strToNumber (joinComma (joinElems es))
  | .jobj _ => none

/-- JS loose equality `x == 0` where `x` is the result of a property access
(`none` is `undefined`). -/
def looseEqZero : Option JVal → Bool
  | none => false
  | some .jnull => false
  | some v => match toNumberVal v with
    | some n => n == 0
    | none => false

/-- JS relational comparison `x > 0` (false whenever either side is NaN;
`undefined` and `null` never exceed 0). -/
def greaterZero : Option JVal → Bool
  | none => false
  | some v => match toNumberVal v with
    | some n => decide (0 < n)
    | none => false

/-- JS truthiness of a property-access result (`undefined`, `null`, `false`,
`0`, and the empty string are falsy). -/
def truthyOpt : Option JVal → Bool
  | none => false
  | some .jnull => false
  | some (.jbool b) => b
  | some (.jnum n) => n != 0
  | some (.jstr s) => s != ""
  | some (.jarr _) => true
  | some (.jobj _) => true

/-- JS truthiness of a value itself. -/
def truthyVal (v : JVal) : Bool := truthyOpt (some v)

/-- `typeof v === 'object'` (true for null, arrays and objects). -/
def typeofIsObject : JVal → Bool
  | .jnull => true
  | .jarr _ => true
  | .jobj _ => true
  | _ => false

end JVal

open JVal

/-- Hexadecimal digit test, as matched by the character class `[0-9a-fA-F]`. -/
def isHexDigit (c : Char) : Bool :=
  c.isDigit || (decide ('a' ≤ c) && decide (c ≤ 'f')) || (decide ('A' ≤ c) && decide (c ≤ 'F'))

/-- The classified event produced by the adapter's `decode`:
an envelope `{type, payload}`. -/
structure WsEvent where
  type : String
  payload : JVal

/-- `(typeof msg?.Message === 'string') ? msg.Message.trim() : ''`. -/
def msgText (msg : JVal) : String :=
  match getFieldOpt msg "Message" with
  | some (.jstr s) => jsTrim s
  | _ => ""

/-- `/^[0-9a-fA-F]{64}$/.test(hex)` where `hex` strips an optional
lowercase `0x` prefix from the message text. -/
def is64HexStr (m : String) : Bool :=
  let hex := if strStartsWith m "0x" then strDrop m 2 else m
  strLen hex == 64 && strAll hex isHexDigit

/-- `!!(msg?.TxHash || msg?.txHash || msg?.txid || msg?.TxId || msg?.TransactionId)`. -/
def hasTxField (msg : JVal) : Bool :=
  truthyOpt (getFieldOpt msg "TxHash") || truthyOpt (getFieldOpt msg "txHash")
    || truthyOpt (getFieldOpt msg "txid") || truthyOpt (getFieldOpt msg "TxId")
    || truthyOpt (getFieldOpt msg "TransactionId")

/-- `typeof msg?.SerialNumber === 'string' && msg.SerialNumber.length > 0`. -/
def serialNonEmpty (msg : JVal) : Bool :=
  match getFieldOpt msg "SerialNumber" with
  | some (.jstr s) => decide (0 < strLen s)
  | _ => false

/-- The classifier's rules after the unguarded `msg.ParticipantsEnrolled > 0`
access has succeeded: the remaining rule chain of the bundle's `decode`,
first match wins, translated if-by-if from the source. -/
def classifyRest (msg : JVal) (pe : Option JVal) : WsEvent :=
  if greaterZero pe then ⟨"ENROLLMENT_STATUS", msg⟩
  else if jsToUpper (msgText msg) == "SUCCESS.ENROLL" then ⟨"ENROLLMENT_RESULT", msg⟩
  else if jsToUpper (msgText msg) == "SUCCESS.SIGNATURE_ADDED" then ⟨"SIGN_RESULT", msg⟩
  else if jsToUpper (msgText msg) == "SUCCESS.SIGNATURE_ENDED" then ⟨"SIGN_RESULT", msg⟩
  else if is64HexStr (msgText msg) || hasTxField msg then ⟨"SIGN_RESULT", msg⟩
  else if serialNonEmpty msg then ⟨"SUCCESS.PIN_SERIAL", msg⟩
  else if decide (0 < strLen (msgText msg))
      && (jsToUpper (msgText msg) != "ERROR.WRONG_PIN")
      && !(strStartsWith (jsToUpper (msgText msg)) "SUCCESS.SIGNATURE_")
      && (jsToUpper (msgText msg) != "SUCCESS.ENROLL")
      && !is64HexStr (msgText msg) then
    ⟨"SUCCESS.PIN_SERIAL",
      .jobj [("SerialNumber", .jstr (msgText msg)), ("Message", .jstr (msgText msg))]⟩
  else if jsToUpper (msgText msg) == "ERROR.WRONG_PIN" then ⟨"ERROR.WRONG_PIN", msg⟩
  else ⟨"UNKNOWN", msg⟩

/-- The core of the bundle's `decode` applied to the tolerantly-parsed value:
the `ParticipantsEnrolled == 0` check guarded by
`msg && typeof msg === 'object'`, then the unguarded
`msg.ParticipantsEnrolled > 0` access (which throws a TypeError when the
parsed value is null), then the remaining rules. -/
def decodeCore (msg : JVal) : Except String WsEvent :=
  if truthyVal msg && typeofIsObject msg
      && looseEqZero (getFieldOpt msg "ParticipantsEnrolled") then
    .ok ⟨"MANAGER_INFO", msg⟩
  else
    (getField msg "ParticipantsEnrolled").map (fun pe => classifyRest msg pe)

/-- The tolerant-parse normalization at the head of `decode`: attempt
`JSON.parse`; on failure wrap the raw text as `\x7bMessage: raw\x7d`; if the
parse produced a (truthy, hence non-empty) string that looks like JSON,
parse it again, otherwise wrap it as a Message. The platform JSON parser is
passed in as `parseJSON` (`none` models a parse exception). -/
def decodeNormalize (parseJSON : String → Option JVal) (raw : String) : JVal :=
  let msg := match parseJSON raw with
    | some v => v
    | none => .jobj [("Message", .jstr raw)]
  match msg with
  | .jstr s =>
    if s != "" then
      let t := jsTrim s
      if (strStartsWith t "\x7b" && strEndsWith t "\x7d")
          || (strStartsWith t "[" && strEndsWith t "]") then
        match parseJSON t with
        | some v => v
        | none => .jobj [("Message", .jstr t)]
      else .jobj [("Message", .jstr t)]
    else .jstr s
  | v => v

/-- The adapter's `decode` on a raw text frame: tolerant parse, then the
classification chain. A `.error` result models the JS function throwing. -/
def decode (parseJSON : String → Option JVal) (raw : String) : Except String WsEvent :=
  decodeCore (decodeNormalize parseJSON raw)

/-- Modelled from the spec: strict equality `ParticipantsEnrolled === 0`
(spec §4.2 rule 1 as literally written). -/
def strictEqZero : Option JVal → Bool
  | some (.jnum n) => n == 0
  | _ => false

/-- Modelled from the spec: the nine-rule classification chain of §4.2,
first match wins, parameterized by the rule-1 zero test and by rule-7's
signature-marker exclusion (the two points where the spec's literal wording
and the source can be read differently). -/
def specRules (eqZero : Option JVal → Bool) (sigExcl : String → Bool)
    (msg : JVal) : WsEvent :=
  if eqZero (getFieldOpt msg "ParticipantsEnrolled") then ⟨"MANAGER_INFO", msg⟩
  else if greaterZero (getFieldOpt msg "ParticipantsEnrolled") then ⟨"ENROLLMENT_STATUS", msg⟩
  else if jsToUpper (msgText msg) == "SUCCESS.ENROLL" then ⟨"ENROLLMENT_RESULT", msg⟩
  else if jsToUpper (msgText msg) == "SUCCESS.SIGNATURE_ADDED"
      || jsToUpper (msgText msg) == "SUCCESS.SIGNATURE_ENDED" then ⟨"SIGN_RESULT", msg⟩
  else if is64HexStr (msgText msg) || hasTxField msg then ⟨"SIGN_RESULT", msg⟩
  else if serialNonEmpty msg then ⟨"SUCCESS.PIN_SERIAL", msg⟩
  else if decide (0 < strLen (msgText msg))
      && (jsToUpper (msgText msg) != "ERROR.WRONG_PIN")
      && !sigExcl (jsToUpper (msgText msg))
      && (jsToUpper (msgText msg) != "SUCCESS.ENROLL")
      && !is64HexStr (msgText msg) then
    ⟨"SUCCESS.PIN_SERIAL",
      .jobj [("SerialNumber", .jstr (msgText msg)), ("Message", .jstr (msgText msg))]⟩
  else if jsToUpper (msgText msg) == "ERROR.WRONG_PIN" then ⟨"ERROR.WRONG_PIN", msg⟩
  else ⟨"UNKNOWN", msg⟩

/-- Modelled from the spec: §4.2's chain as literally stated in claim C2 —
rule 1 with strict `=== 0`, rule 7 excluding exactly the two
signature-success markers. -/
def specClassifyStrict (msg : JVal) : WsEvent :=
  specRules strictEqZero
    (fun u => u == "SUCCESS.SIGNATURE_ADDED" || u == "SUCCESS.SIGNATURE_ENDED") msg

/-- Modelled from the spec: §4.2's chain amended to match the source's
coercions — rule 1 with loose `== 0`, rule 7 excluding every message text
starting with `SUCCESS.SIGNATURE_`. -/
def specClassifyLoose (msg : JVal) : WsEvent :=
  specRules looseEqZero (fun u => strStartsWith u "SUCCESS.SIGNATURE_") msg

/-!
The outbound encoder of the EnrollmentClient (source lines 292-300).
-/

/-- Outbound envelope as built by `ObjectSocket.send` / `ObjectSocket.request`:
`\x7btype, id?, payload?\x7d` (absent members are JS `undefined`). -/
structure Envelope where
  type : String
  id : Option String
  payload : Option JVal

/-- The `JSON.stringify` view of an envelope object (members that are
`undefined` are omitted from the serialized object). -/
def envelopeJVal (env : Envelope) : JVal :=
  .jobj ([("type", JVal.jstr env.type)]
    ++ (match env.id with | some i => [("id", JVal.jstr i)] | none => [])
    ++ (match env.payload with | some p => [("payload", p)] | none => []))

/-- One JS property write: update the key in place if present, else append. -/
def setField : List (String × JVal) → String → JVal → List (String × JVal)
  | [], k, v => [(k, v)]
  | (k1, v1) :: rest, k, v =>
    if k1 == k then (k, v) :: rest else (k1, v1) :: setField rest k v

/-- `Object.assign(target, src)` on field lists: copies the source's
properties onto the target, later writes overriding earlier ones. -/
def objAssign (target src : List (String × JVal)) : List (String × JVal) :=
  src.foldl (fun acc kv => setField acc kv.1 kv.2) target

/-- Own enumerable properties a value contributes as an `Object.assign`
source: an object's fields, a string's or array's indexed elements, nothing
for other primitives. -/
def assignFields : JVal → List (String × JVal)
  | .jobj fs => fs
  | .jstr s => (s.data.enum).map (fun ic => (toString ic.1, JVal.jstr (.mk [ic.2])))
  | .jarr es => (es.enum).map (fun ie => (toString ie.1, ie.2))
  | _ => []

/-- Source fields of `env.payload || \x7b\x7d`: a missing or falsy payload
contributes nothing. -/
def encodePayloadFields (p : Option JVal) : List (String × JVal) :=
  match p with
  | none => []
  | some v => if truthyVal v then assignFields v else []

/-- The EnrollmentClient's outbound `encode` (lines 292-300), as the object
that gets `JSON.stringify`-ed: the three coordinator-addressed types are
flattened to `\x7bMethod: type, ...payload\x7d`; every other envelope falls
back to `env.payload || env`. -/
def encode (env : Envelope) : JVal :=
  if env.type == "Info_ManagerForEnroll" || env.type == "Enrollment"
      || env.type == "Info_Enrollment" then
    .jobj (objAssign [("Method", .jstr env.type)] (encodePayloadFields env.payload))
  else
    match env.payload with
    | some p => if truthyVal p then p else envelopeJVal env
    | none => envelopeJVal env

/-- Keys of an object field list. -/
def fieldKeys : List (String × JVal) → List String
  | [] => []
  | (k, _) :: rest => k :: fieldKeys rest

/-!
ObjectSocket connection state machine: pending-request table, timers,
connect/close/error handlers (source lines 62-231), with each JS callback
translated as one atomic step of a transition relation (the runtime is
single-threaded and event-driven, so callbacks never interleave).
Requests are keyed by the monotonic `_idCounter` (`_nextId` prefixes a
timestamp string, which only strengthens uniqueness), so request ids are
modelled as the naturals `1, 2, ...` in issue order.
-/

/-- The three settlement paths of a pending request's future. -/
inductive Settle where
  | replyOk
  | replyErr
  | timeoutRej
  | closeRej
deriving DecidableEq

/-- Settlement state of the future returned by `connect()`. -/
inductive PromiseSt where
  | pendingP
  | resolvedP
  | rejectedP
deriving DecidableEq

/-- Observable side effects of the close handler, in emission order. -/
inductive Action where
  | emitEvt (name : String)
  | rejectPending (id : Nat) (err : String)
  | scheduleConnect (attempt : Nat)
  | sendFrame (v : JVal)

/-- One ObjectSocket's state: connection flag, reconnect bookkeeping,
heartbeat, the pending map (as the list of live request ids), the set of
armed request timers, the log of settlements, and the connect future. -/
structure OSState where
  connected : Bool
  reconnectAttempts : Nat
  autoReconnect : Bool
  maxReconnects : Option Nat
  heartbeatIntervalMs : Nat
  heartbeatActive : Bool
  idCounter : Nat
  pending : List Nat
  activeTimers : List Nat
  settled : List (Nat × Settle)
  connectPromise : PromiseSt
  emitted : List String

/-- Ids of already-settled requests, in settlement order. -/
def settledIds (s : OSState) : List Nat := s.settled.map Prod.fst

/-- Constructor state (lines 80-88) for the given options
(`maxReconnects = none` models the default `Infinity`). -/
def initOS (autoRec : Bool) (mx : Option Nat) (hbInterval : Nat) : OSState :=
  { connected := false, reconnectAttempts := 0, autoReconnect := autoRec,
    maxReconnects := mx, heartbeatIntervalMs := hbInterval,
    heartbeatActive := false, idCounter := 0, pending := [],
    activeTimers := [], settled := [], connectPromise := .pendingP,
    emitted := [] }

/-- `request` (lines 131-146): draw the next id from the monotonic counter,
register the pending entry together with its armed timeout timer, send. -/
def reqStep (s : OSState) : OSState :=
  { s with idCounter := s.idCounter + 1,
           pending := s.pending ++ [s.idCounter + 1],
           activeTimers := s.activeTimers ++ [s.idCounter + 1] }

/-- The timeout callback (lines 139-142): delete the id from the pending map
and reject; the one-shot timer itself is consumed by firing. -/
def timeoutFire (s : OSState) (id : Nat) : OSState :=
  { s with pending := s.pending.erase id,
           activeTimers := s.activeTimers.erase id,
           settled := s.settled ++ [(id, Settle.timeoutRej)] }

/-- The reply branch of `_handleMessage` (lines 243-257): if the reply's
`replyTo` id is pending, cancel its timer, delete it, and settle it
(resolve, or reject when the reply envelope carries an error). -/
def replyStep (s : OSState) (id : Nat) (isErr : Bool) : OSState :=
  if id ∈ s.pending then
    { s with pending := s.pending.erase id,
             activeTimers := s.activeTimers.erase id,
             settled := s.settled ++ [(id, if isErr then Settle.replyErr else Settle.replyOk)] }
  else s

/-- `_failAllPending` (lines 224-231): cancel every pending entry's timer,
reject it, and delete it from the map. -/
def failAllPending (s : OSState) : OSState :=
  { s with pending := [],
           activeTimers := s.activeTimers.filter (fun t => !(s.pending.contains t)),
           settled := s.settled ++ s.pending.map (fun id => (id, Settle.closeRej)) }

/-- `attempts >= maxReconnects` with the default `Infinity` bound. -/
def atMaxReconnects (mx : Option Nat) (attempts : Nat) : Bool :=
  match mx with
  | none => false
  | some m => decide (m ≤ attempts)

/-- `_scheduleReconnect` (lines 194-201): below the bound, consume the
current attempt number, emit `reconnecting`, and arm the delayed
`connect()` call. -/
def scheduleReconnect (s : OSState) : OSState × List Action :=
  if atMaxReconnects s.maxReconnects s.reconnectAttempts then (s, [])
  else
    ({ s with reconnectAttempts := s.reconnectAttempts + 1,
              emitted := s.emitted ++ ["reconnecting"] },
     [Action.emitEvt "reconnecting", Action.scheduleConnect s.reconnectAttempts])

/-- `ws.onclose` (lines 106-113): clear the connected flag and heartbeat,
emit `disconnected`, fail every pending request (only if the socket had
been connected), then schedule a reconnect when auto-reconnect is on.
Returns the successor state and the handler's side effects in order. -/
def closeStep (s : OSState) : OSState × List Action :=
  let wasConnected := s.connected
  let s1 : OSState := { s with connected := false, heartbeatActive := false,
                               emitted := s.emitted ++ ["disconnected"] }
  let s2 := if wasConnected then failAllPending s1 else s1
  let rejectActs := if wasConnected then
      s.pending.map (fun id => Action.rejectPending id "socket closed")
    else []
  let sched := if s2.autoReconnect then scheduleReconnect s2 else (s2, [])
  (sched.1, Action.emitEvt "disconnected" :: rejectActs ++ sched.2)

/-- `_startHeartbeat` (lines 203-212): arms the interval only when a
non-zero `intervalMs` is configured. -/
def startHeartbeat (s : OSState) : OSState :=
  if s.heartbeatIntervalMs == 0 then s else { s with heartbeatActive := true }

/-- Resolution of a (possibly already settled) JS promise: settling is
first-wins. -/
def resolveP : PromiseSt → PromiseSt
  | .pendingP => .resolvedP
  | p => p

/-- `ws.onopen` (lines 97-103): set connected, reset the reconnect-attempt
counter to 0, emit `connected`, start the heartbeat, resolve the connect
future. -/
def openStep (s : OSState) : OSState :=
  startHeartbeat { s with connected := true, reconnectAttempts := 0,
                          emitted := s.emitted ++ ["connected"],
                          connectPromise := resolveP s.connectPromise }

/-- `ws.onerror` (line 105): emits the `error` lifecycle event and nothing
else — in particular it does not touch the connect future. -/
def errorStep (s : OSState) : OSState :=
  { s with emitted := s.emitted ++ ["error"] }

/-- A `connect()` call (lines 90-117): the call returns
`_buildUrlWithToken().then(...)`, so the returned future is rejected when
the URL-resolution stage fails (`urlFails` — an asynchronous token promise
rejecting, or `new URL`/the token getter throwing, lines 183-192), or when
constructing the socket throws synchronously (`ctorThrows` — the
`catch (err)` around `new WebSocket`, line 114); otherwise the handlers are
wired and the future stays pending until `onopen` resolves it. -/
def connectAttempt (s : OSState) (urlFails ctorThrows : Bool) : OSState :=
  if urlFails then { s with connectPromise := .rejectedP }
  else if ctorThrows then { s with connectPromise := .rejectedP }
  else { s with connectPromise := .pendingP }

/-- The atomic steps of one ObjectSocket: each constructor is one JS
callback run to completion. `request` requires the open socket
(`ws.readyState === OPEN`, line 132); a timeout callback can only run while
its timer is still armed. -/
inductive OSStep : OSState → OSState → Prop where
  | request (s : OSState) : s.connected = true → OSStep s (reqStep s)
  | timeout (s : OSState) (id : Nat) : id ∈ s.activeTimers → OSStep s (timeoutFire s id)
  | reply (s : OSState) (id : Nat) (isErr : Bool) : OSStep s (replyStep s id isErr)
  | close (s : OSState) : OSStep s (closeStep s).1
  | openEvt (s : OSState) : OSStep s (openStep s)
  | errorEvt (s : OSState) : OSStep s (errorStep s)
  | connectCall (s : OSState) (urlFails ctorThrows : Bool) :
      OSStep s (connectAttempt s urlFails ctorThrows)

/-- States reachable from a freshly constructed socket under any
interleaving of callbacks. -/
inductive OSReachable : OSState → Prop where
  | init (autoRec : Bool) (mx : Option Nat) (hb : Nat) : OSReachable (initOS autoRec mx hb)
  | step {s t : OSState} : OSReachable s → OSStep s t → OSReachable t

/-- The pending-table invariant maintained by every step. -/
structure OSInv (s : OSState) : Prop where
  timers_eq : s.activeTimers = s.pending
  pending_nodup : s.pending.Nodup
  pending_issued : ∀ id ∈ s.pending, 1 ≤ id ∧ id ≤ s.idCounter
  settled_issued : ∀ id ∈ settledIds s, 1 ≤ id ∧ id ≤ s.idCounter
  settled_nodup : (settledIds s).Nodup
  mem_iff : ∀ id, 1 ≤ id → id ≤ s.idCounter → (id ∈ s.pending ↔ id ∉ settledIds s)
  conn_of_pending : s.pending ≠ [] → s.connected = true

/-!
EnrollmentClient workflow operations (source lines 407-490): each operation
is `_sendAndWait(type, payload, expectTypes, timeoutMs)`.
-/

/-- Timeouts from the bundle header (lines 10-14). -/
def CHECKPIN_TIMEOUT : Nat := 300000

/-- `SENDSTATUS_TIMEOUT` (line 11). -/
def SENDSTATUS_TIMEOUT : Nat := 10000

/-- `STATUS_POLLING_INTERVAL` (line 12). -/
def STATUS_POLLING_INTERVAL : Nat := 5000

/-- `DEFAULT_ENROLL_WAITFOR_TIMEOUT` (line 13). -/
def DEFAULT_ENROLL_WAITFOR_TIMEOUT : Nat := 300000

/-- `SIGNATURE_TIMEOUT` (line 14). -/
def SIGNATURE_TIMEOUT : Nat := 300000

/-- The static shape of one `_sendAndWait` call: outbound message type, the
awaited completion event types, and the deadline. -/
structure OpCall where
  outType : String
  expect : List String
  timeoutMs : Nat

/-- `requestManagerInfo` (lines 407-409). -/
def requestManagerInfoCall : OpCall := ⟨"Info_Enrollment", ["MANAGER_INFO"], 60000⟩

/-- `enroll` (lines 411-415). -/
def enrollCall : OpCall := ⟨"Enrollment", ["ENROLLMENT_RESULT"], 200000⟩

/-- `sign` (lines 417-427). -/
def signCall : OpCall :=
  ⟨"Sign", ["SIGN_RESULT", "SUCCESS.SIGNATURE_ADDED", "SUCCESS.SIGNATURE_ENDED"],
    SIGNATURE_TIMEOUT⟩

/-- `sendStatus` (lines 429-433). -/
def sendStatusCall : OpCall := ⟨"Info_Enrollment", ["ENROLLMENT_STATUS"], SENDSTATUS_TIMEOUT⟩

/-- `checkPIN` (lines 435-439). -/
def checkPINCall : OpCall :=
  ⟨"CheckPIN", ["SUCCESS.PIN_SERIAL", "ERROR.WRONG_PIN"], CHECKPIN_TIMEOUT⟩

/-- How a `_sendAndWait` future settles. -/
inductive WaitRes where
  | single (p : JVal)
  | multi (t : String) (p : JVal)
  | timedOut

/-- The wait phase of `_sendAndWait` (lines 475-489) over the timeline of
classified events `(arrivalTime, type, payload)` delivered in time order:
the first event of an awaited type before the deadline wins, unsubscribing
everything and cancelling the timer; the result is the bare payload for a
single awaited type and `\x7btype, payload\x7d` when several are awaited
(`isMulti = expectList.length > 1`); with no such event the deadline timer
rejects. -/
def sendAndWaitRun (expect : List String) (timeoutMs : Nat) :
    List (Nat × String × JVal) → WaitRes
  | [] => .timedOut
  | (t, ty, p) :: rest =>
    if timeoutMs ≤ t then .timedOut
    else if expect.contains ty then
      if 1 < expect.length then .multi ty p else .single p
    else sendAndWaitRun expect timeoutMs rest

/-!
`waitFor` (source lines 456-465): two subscriptions plus one timer, torn
down together by the shared `off()` on the first settlement.
-/

/-- How a `waitFor` future settles. -/
inductive WFOutcome where
  | okOut (p : JVal)
  | timedOutRej

/-- Live resources of one `waitFor` call. -/
structure WFState where
  statusSubOn : Bool
  resultSubOn : Bool
  timerOn : Bool
  offCount : Nat
  result : Option WFOutcome

/-- State right after the `waitFor` body ran: both handlers subscribed, the
timer armed, the future pending. -/
def wfInit : WFState :=
  { statusSubOn := true, resultSubOn := true, timerOn := true,
    offCount := 0, result := none }

/-- The shared `off()` (line 463): cancel the timer and remove both
subscriptions. -/
def wfOff (s : WFState) : WFState :=
  { s with statusSubOn := false, resultSubOn := false, timerOn := false,
           offCount := s.offCount + 1 }

/-- `off()` followed by settling the future (first settlement wins). -/
def wfSettle (s : WFState) (o : WFOutcome) : WFState :=
  let s1 := wfOff s
  { s1 with result := match s1.result with | none => some o | r => r }

/-- Events a `waitFor` call can observe: a classified `ENROLLMENT_STATUS`
payload, a classified `ENROLLMENT_RESULT` payload, or its timer firing. -/
inductive WFEv where
  | statusEv (p : JVal)
  | resultEv (p : JVal)
  | timerFireEv

/-- One event delivery (lines 460-462). A handler runs only while its
subscription is live; the status handler evaluates the predicate inside
`try \x7b ... \x7d catch (_) \x7b\x7d`, so a throwing predicate (modelled by
`Except.error`) is swallowed and the wait continues; the timer fires only
while armed. -/
def wfStep (pred : JVal → Except Unit Bool) (s : WFState) : WFEv → WFState
  | .statusEv p =>
    if s.statusSubOn then
      match pred p with
      | .ok true => wfSettle s (.okOut p)
      | _ => s
    else s
  | .resultEv p => if s.resultSubOn then wfSettle s (.okOut p) else s
  | .timerFireEv => if s.timerOn then wfSettle s .timedOutRej else s

/-- A whole `waitFor` call observing the event sequence `evs`. -/
def wfRun (pred : JVal → Except Unit Bool) (evs : List WFEv) : WFState :=
  evs.foldl (wfStep pred) wfInit

/-- The settlement `waitFor` should reach on `evs`: the first qualifying
status event, first result event, or timer firing — whichever comes first. -/
def wfFirst (pred : JVal → Except Unit Bool) : List WFEv → Option WFOutcome
  | [] => none
  | .statusEv p :: rest =>
    match pred p with
    | .ok true => some (.okOut p)
    | _ => wfFirst pred rest
  | .resultEv p :: _ => some (.okOut p)
  | .timerFireEv :: _ => some .timedOutRej

/-!
Handler fan-out of `_handleMessage` (source lines 260-277) and `_sendReply`
(lines 279-284).
-/

/-- Relevant behavior of one subscribed handler on this envelope. -/
inductive HBeh where
  | okH
  | throwsSync
  | rejectsAsync (msg : String)

/-- Observable dispatch effects: handler invocations (by subscription
index) and synthesized error replies sent on the socket. -/
inductive DAct where
  | invoke (i : Nat)
  | sendReply (replyType : String) (replyTo : String) (errMsg : String)
deriving DecidableEq

/-- `ctx.replyError` → `_sendReply` (lines 279-284): a reply goes out only
when the originating envelope carried an id and the socket is open; the
reply envelope is `\x7btype: type + ':REPLY', replyTo: id, error\x7d`. -/
def replyErrorActs (envType : String) (envId : Option String) (socketOpen : Bool)
    (errMsg : String) : List DAct :=
  match envId with
  | none => []
  | some i => if socketOpen then [.sendReply (envType ++ ":REPLY") i errMsg] else []

/-- The `set.forEach(handler => ...)` loop (lines 263-275), with `i` the
index of the next handler: each handler is invoked inside its own
try/catch, so a synchronous throw (caught as `'handler threw'`) or an async
rejection (caught with the error's message) synthesizes an error reply
without stopping the iteration. -/
def dispatchFrom (envType : String) (envId : Option String) (socketOpen : Bool)
    (i : Nat) : List HBeh → List DAct
  | [] => []
  | h :: rest =>
    DAct.invoke i ::
      (match h with
       | .okH => []
       | .throwsSync => replyErrorActs envType envId socketOpen "handler threw"
       | .rejectsAsync m => replyErrorActs envType envId socketOpen m)
      ++ dispatchFrom envType envId socketOpen (i + 1) rest

/-- Fan-out of a non-reply envelope to all handlers subscribed to its type. -/
def dispatchHandlers (handlers : List HBeh) (envType : String) (envId : Option String)
    (socketOpen : Bool) : List DAct :=
  dispatchFrom envType envId socketOpen 0 handlers

/-- Does this handler behavior synthesize an error reply? -/
def failing : HBeh → Bool
  | .okH => false
  | _ => true

/-- Is this dispatch effect a synthesized reply? -/
def isReplyAct : DAct → Bool
  | .sendReply _ _ _ => true
  | _ => false

/-!
`defaultBackoff` (source lines 32-36) and the decode stage of
`_handleMessage` (lines 233-241).
-/

/-- `defaultBackoff(attempt)`: `min(30000, 500 * 2^attempt) + jitter` where
`jitter = Math.floor(Math.random() * 250)` ranges over `[0, 250)`. -/
def defaultBackoff (attempt jitter : Nat) : Nat :=
  min 30000 (500 * 2 ^ attempt) + jitter

/-- What `_handleMessage` does with one inbound frame's decode result. -/
inductive HandleOutcome where
  | emitError
  | thrown
  | dispatched (ev : WsEvent)

/-- The decode stage of `_handleMessage` (lines 233-241): a decode
exception is emitted as the `error` lifecycle event under tolerant decode
(and re-thrown otherwise); a decoded event goes on to dispatch — the
adapter's classified events always carry a string `type` and never a
`replyTo`, so they reach the type-subscribed handlers. -/
def handleDecoded (res : Except String WsEvent) (tolerant : Bool) : HandleOutcome :=
  match res with
  | .error _ => if tolerant then .emitError else .thrown
  | .ok ev => .dispatched ev

/-!
Theorems.
-/

/-- C9: for every attempt number `k` and every jitter draw
`j = Math.floor(Math.random() * 250) ∈ [0, 250)`, the default reconnect
backoff delay lies in the half-open interval
`[min(30000, 500*2^k), min(30000, 500*2^k) + 250)`. -/
theorem c9_backoff_range (k j : Nat) (hj : j < 250) :
    min 30000 (500 * 2 ^ k) ≤ defaultBackoff k j
      ∧ defaultBackoff k j < min 30000 (500 * 2 ^ k) + 250 :=
  ⟨Nat.le_add_right _ _, Nat.add_lt_add_left hj _⟩

/-- Witness for C9 at attempt 3, jitter 100. -/
theorem c9_backoff_range_witness :
    min 30000 (500 * 2 ^ 3) ≤ defaultBackoff 3 100
      ∧ defaultBackoff 3 100 < min 30000 (500 * 2 ^ 3) + 250 :=
  c9_backoff_range 3 100 (by decide)

/-- C10: a frame whose text parses to JSON `null` makes the decoder throw —
the `ParticipantsEnrolled > 0` check dereferences null outside the object
guard — so under tolerant decode `_handleMessage` surfaces the frame via
the `error` lifecycle event and dispatches no classified event at all. -/
theorem c10_null_frame (parse : String → Option JVal)
    (h : parse "null" = some JVal.jnull) :
    decode parse "null" = Except.error "TypeError: cannot read ParticipantsEnrolled of null"
      ∧ handleDecoded (decode parse "null") true = HandleOutcome.emitError := by
  have hn : decodeNormalize parse "null" = JVal.jnull := by
    unfold decodeNormalize
    rw [h]
  have hd : decode parse "null"
      = Except.error "TypeError: cannot read ParticipantsEnrolled of null" := by
    unfold decode
    rw [hn]
    rfl
  refine ⟨hd, ?_⟩
  rw [hd]
  rfl

/-- Witness for C10 with a concrete parse oracle. -/
theorem c10_null_frame_witness :
    decode (fun s => if s == "null" then some JVal.jnull else none) "null"
        = Except.error "TypeError: cannot read ParticipantsEnrolled of null"
      ∧ handleDecoded
          (decode (fun s => if s == "null" then some JVal.jnull else none) "null") true
        = HandleOutcome.emitError :=
  c10_null_frame (fun s => if s == "null" then some JVal.jnull else none) rfl

/-- C3 counterexample: `connect()` succeeds in resolving the URL and
constructing the socket (future pending) and the socket then errors before
opening; the error handler only emits the `error` lifecycle event and the
connect future is still pending — it is not rejected, contradicting the
claim's "rejects if the socket errors before opening". -/
theorem c3_counterexample :
    (errorStep (connectAttempt (initOS true none 0) false false)).connectPromise
        = PromiseSt.pendingP
      ∧ (errorStep (connectAttempt (initOS true none 0) false false)).emitted = ["error"]
      ∧ PromiseSt.pendingP ≠ PromiseSt.rejectedP :=
  ⟨rfl, rfl, by decide⟩

/-- Field-wise description of `ws.onopen`. -/
theorem openStep_parts (s : OSState) :
    (openStep s).connected = true
    ∧ (openStep s).reconnectAttempts = 0
    ∧ (openStep s).emitted = s.emitted ++ ["connected"]
    ∧ (openStep s).heartbeatActive
        = (if s.heartbeatIntervalMs == 0 then s.heartbeatActive else true)
    ∧ (openStep s).connectPromise = resolveP s.connectPromise := by
  unfold openStep startHeartbeat
  split <;> exact ⟨rfl, rfl, rfl, rfl, rfl⟩

/-- C3 amended: `connect()` returns a future that resolves when the socket
opens; it is rejected when resolving the connection URL fails (an
asynchronous token rejection or a URL-construction throw) or when
constructing the socket throws synchronously, while a socket error event
before open merely emits the `error` lifecycle event and leaves the future
pending. On open the reconnect-attempt counter is reset to 0, the
heartbeat is started if a non-zero interval is configured, and `connected`
is emitted. -/
theorem c3_connect_amended :
    (∀ s : OSState,
        (connectAttempt s false false).connectPromise = PromiseSt.pendingP
        ∧ (openStep (connectAttempt s false false)).connectPromise = PromiseSt.resolvedP
        ∧ (errorStep (connectAttempt s false false)).connectPromise = PromiseSt.pendingP)
    ∧ (∀ (s : OSState) (c : Bool),
        (connectAttempt s true c).connectPromise = PromiseSt.rejectedP)
    ∧ (∀ s : OSState, (connectAttempt s false true).connectPromise = PromiseSt.rejectedP)
    ∧ (∀ s : OSState,
        (openStep s).connected = true
        ∧ (openStep s).reconnectAttempts = 0
        ∧ (openStep s).emitted = s.emitted ++ ["connected"]
        ∧ (openStep s).heartbeatActive
            = (if s.heartbeatIntervalMs == 0 then s.heartbeatActive else true)
        ∧ (openStep s).connectPromise = resolveP s.connectPromise)
    ∧ (∀ s : OSState,
        (errorStep s).emitted = s.emitted ++ ["error"]
        ∧ (errorStep s).connectPromise = s.connectPromise) := by
  refine ⟨fun s => ⟨rfl, ?_, rfl⟩, fun s c => rfl, fun s => rfl,
    fun s => openStep_parts s, fun s => ⟨rfl, rfl⟩⟩
  rw [(openStep_parts (connectAttempt s false false)).2.2.2.2]
  rfl

/-- C5 helper: `_sendAndWait` resolves on the first delivered event whose
type is awaited, provided it arrives before the deadline and nothing
matched earlier. -/
theorem sendAndWaitRun_resolves (exp : List String) (tmo : Nat)
    (pre : List (Nat × String × JVal)) (t : Nat) (ty : String) (p : JVal)
    (post : List (Nat × String × JVal))
    (hpre : ∀ e ∈ pre, e.1 < tmo ∧ exp.contains e.2.1 = false)
    (ht : t < tmo) (hty : exp.contains ty = true) :
    sendAndWaitRun exp tmo (pre ++ (t, ty, p) :: post)
      = if 1 < exp.length then WaitRes.multi ty p else WaitRes.single p := by
  induction pre with
  | nil =>
    simp only [List.nil_append, sendAndWaitRun, hty, if_pos, Nat.not_le.mpr ht, if_neg,
      if_true]
    simp [Nat.not_le.mpr ht, hty]
  | cons e rest ih =>
    obtain ⟨he1, he2⟩ := hpre e (List.mem_cons_self e rest)
    obtain ⟨t1, ty1, p1⟩ := e
    simp only [List.cons_append, sendAndWaitRun, Nat.not_le.mpr he1, if_neg]
    simp only [he2] at *
    simp only [Nat.not_le.mpr he1, if_neg, Bool.false_eq_true, if_false]
    exact ih (fun e he => hpre e (List.mem_cons_of_mem _ he))

/-- C5 helper: with no awaited-type event before the deadline, the timer
rejects. -/
theorem sendAndWaitRun_timesOut (exp : List String) (tmo : Nat)
    (evs : List (Nat × String × JVal))
    (h : ∀ e ∈ evs, e.1 < tmo → exp.contains e.2.1 = false) :
    sendAndWaitRun exp tmo evs = WaitRes.timedOut := by
  induction evs with
  | nil => rfl
  | cons e rest ih =>
    obtain ⟨t1, ty1, p1⟩ := e
    by_cases hle : tmo ≤ t1
    · simp [sendAndWaitRun, hle]
    · have := h (t1, ty1, p1) (List.mem_cons_self _ rest) (Nat.lt_of_not_le hle)
      simp only [sendAndWaitRun, hle, if_false, this]
      exact ih (fun e he => h e (List.mem_cons_of_mem _ he))

/-- C5: each workflow operation sends exactly the listed outbound type and
awaits the listed completion event types under the listed timeout
(`requestManagerInfo`: Info_Enrollment → MANAGER_INFO, 60 s; `enroll`:
Enrollment → ENROLLMENT_RESULT, 200 s; `sign`: Sign → SIGN_RESULT or the
two signature-success markers, 300 s; `checkPIN`: CheckPIN →
SUCCESS.PIN_SERIAL or ERROR.WRONG_PIN, 300 s; `sendStatus`:
Info_Enrollment → ENROLLMENT_STATUS, 10 s); the wait settles on the first
awaited event before the deadline and times out otherwise. -/
theorem c5_operations :
    requestManagerInfoCall = ⟨"Info_Enrollment", ["MANAGER_INFO"], 60000⟩
    ∧ enrollCall = ⟨"Enrollment", ["ENROLLMENT_RESULT"], 200000⟩
    ∧ signCall = ⟨"Sign",
        ["SIGN_RESULT", "SUCCESS.SIGNATURE_ADDED", "SUCCESS.SIGNATURE_ENDED"], 300000⟩
    ∧ checkPINCall = ⟨"CheckPIN", ["SUCCESS.PIN_SERIAL", "ERROR.WRONG_PIN"], 300000⟩
    ∧ sendStatusCall = ⟨"Info_Enrollment", ["ENROLLMENT_STATUS"], 10000⟩
    ∧ (∀ (exp : List String) (tmo : Nat) (pre : List (Nat × String × JVal)) (t : Nat)
        (ty : String) (p : JVal) (post : List (Nat × String × JVal)),
        (∀ e ∈ pre, e.1 < tmo ∧ exp.contains e.2.1 = false) → t < tmo →
        exp.contains ty = true →
        sendAndWaitRun exp tmo (pre ++ (t, ty, p) :: post)
          = if 1 < exp.length then WaitRes.multi ty p else WaitRes.single p)
    ∧ (∀ (exp : List String) (tmo : Nat) (evs : List (Nat × String × JVal)),
        (∀ e ∈ evs, e.1 < tmo → exp.contains e.2.1 = false) →
        sendAndWaitRun exp tmo evs = WaitRes.timedOut) :=
  ⟨rfl, rfl, rfl, rfl, rfl, sendAndWaitRun_resolves, sendAndWaitRun_timesOut⟩

/-- Witness for C5: a MANAGER_INFO event at 5 ms resolves the
`requestManagerInfo` wait with the bare payload; with no event the wait
times out. -/
theorem c5_operations_witness :
    sendAndWaitRun ["MANAGER_INFO"] 60000 [(5, "MANAGER_INFO", JVal.jnull)]
        = WaitRes.single JVal.jnull
      ∧ sendAndWaitRun ["MANAGER_INFO"] 60000 [] = WaitRes.timedOut := by
  constructor
  · have h := c5_operations.2.2.2.2.2.1 ["MANAGER_INFO"] 60000 [] 5 "MANAGER_INFO"
      JVal.jnull [] (by simp) (by decide) (by decide)
    simpa using h
  · exact c5_operations.2.2.2.2.2.2 ["MANAGER_INFO"] 60000 [] (by simp)

/-- After `waitFor` has settled (all resources off), every further event
delivery is a no-op. -/
theorem wfStep_dead (pred : JVal → Except Unit Bool) (s : WFState) (e : WFEv)
    (h1 : s.statusSubOn = false) (h2 : s.resultSubOn = false)
    (h3 : s.timerOn = false) : wfStep pred s e = s := by
  cases e <;> simp [wfStep, h1, h2, h3]

/-- Folding further events over a settled `waitFor` state changes nothing. -/
theorem wfFold_dead (pred : JVal → Except Unit Bool) (s : WFState)
    (h1 : s.statusSubOn = false) (h2 : s.resultSubOn = false)
    (h3 : s.timerOn = false) :
    ∀ evs : List WFEv, evs.foldl (wfStep pred) s = s := by
  intro evs
  induction evs with
  | nil => rfl
  | cons e rest ih => rw [List.foldl_cons, wfStep_dead pred s e h1 h2 h3]; exact ih

/-- Main `waitFor` run lemma: the future settles exactly as the first
qualifying event dictates, and the two subscriptions and the timer are live
exactly while the future is unsettled, with `off()` run exactly once upon
settlement. -/
theorem wfRun_spec (pred : JVal → Except Unit Bool) (evs : List WFEv) :
    (wfRun pred evs).result = wfFirst pred evs
    ∧ (wfRun pred evs).statusSubOn = (wfRun pred evs).result.isNone
    ∧ (wfRun pred evs).resultSubOn = (wfRun pred evs).result.isNone
    ∧ (wfRun pred evs).timerOn = (wfRun pred evs).result.isNone
    ∧ (wfRun pred evs).offCount = (if (wfRun pred evs).result.isNone then 0 else 1) := by
  induction evs with
  | nil => exact ⟨rfl, rfl, rfl, rfl, rfl⟩
  | cons e rest ih =>
    have hrun : wfRun pred (e :: rest)
        = List.foldl (wfStep pred) (wfStep pred wfInit e) rest := rfl
    cases e with
    | statusEv p =>
      cases hp : pred p with
      | error u =>
        have hstep : wfStep pred wfInit (.statusEv p) = wfInit := by
          simp [wfStep, wfInit, hp]
        have hfirst : wfFirst pred (WFEv.statusEv p :: rest) = wfFirst pred rest := by
          simp [wfFirst, hp]
        rw [hrun, hstep, hfirst]
        exact ih
      | ok b =>
        cases b with
        | false =>
          have hstep : wfStep pred wfInit (.statusEv p) = wfInit := by
            simp [wfStep, wfInit, hp]
          have hfirst : wfFirst pred (WFEv.statusEv p :: rest) = wfFirst pred rest := by
            simp [wfFirst, hp]
          rw [hrun, hstep, hfirst]
          exact ih
        | true =>
          have hstep : wfStep pred wfInit (.statusEv p)
              = ⟨false, false, false, 1, some (.okOut p)⟩ := by
            simp [wfStep, wfInit, hp, wfSettle, wfOff]
          rw [hrun, hstep, wfFold_dead pred _ rfl rfl rfl rest]
          exact ⟨by simp [wfFirst, hp], rfl, rfl, rfl, rfl⟩
    | resultEv p =>
      have hstep : wfStep pred wfInit (.resultEv p)
          = ⟨false, false, false, 1, some (.okOut p)⟩ := by
        simp [wfStep, wfInit, wfSettle, wfOff]
      rw [hrun, hstep, wfFold_dead pred _ rfl rfl rfl rest]
      exact ⟨rfl, rfl, rfl, rfl, rfl⟩
    | timerFireEv =>
      have hstep : wfStep pred wfInit .timerFireEv
          = ⟨false, false, false, 1, some .timedOutRej⟩ := by
        simp [wfStep, wfInit, wfSettle, wfOff]
      rw [hrun, hstep, wfFold_dead pred _ rfl rfl rfl rest]
      exact ⟨rfl, rfl, rfl, rfl, rfl⟩

/-- C7: `waitFor` settles with the first qualifying `ENROLLMENT_STATUS`
event (predicate truthy), any `ENROLLMENT_RESULT` event, or the timeout —
whichever comes first; its two subscriptions and its timer are released by
exactly one `off()` call on every settlement path and stay live until then;
and even when two qualifying status frames arrive back-to-back, the future
resolves exactly once, with the first payload. -/
theorem c7_waitFor :
    (∀ (pred : JVal → Except Unit Bool) (evs : List WFEv),
      (wfRun pred evs).result = wfFirst pred evs)
    ∧ (∀ (pred : JVal → Except Unit Bool) (evs : List WFEv),
        (wfRun pred evs).statusSubOn = (wfRun pred evs).result.isNone
        ∧ (wfRun pred evs).resultSubOn = (wfRun pred evs).result.isNone
        ∧ (wfRun pred evs).timerOn = (wfRun pred evs).result.isNone
        ∧ (wfRun pred evs).offCount = (if (wfRun pred evs).result.isNone then 0 else 1))
    ∧ (∀ p q : JVal,
        wfRun (fun _ => Except.ok true) [WFEv.statusEv p, WFEv.statusEv q]
          = ⟨false, false, false, 1, some (WFOutcome.okOut p)⟩) :=
  ⟨fun pred evs => (wfRun_spec pred evs).1,
   fun pred evs => (wfRun_spec pred evs).2,
   fun _ _ => rfl⟩

/-- Every subscribed handler is invoked, whatever the other handlers do. -/
theorem dispatchFrom_invoke (ty : String) (oid : Option String) (b : Bool) :
    ∀ (hs : List HBeh) (j i : Nat), i < hs.length →
      DAct.invoke (j + i) ∈ dispatchFrom ty oid b j hs := by
  intro hs
  induction hs with
  | nil => intro j i h; exact absurd h (Nat.not_lt_zero i)
  | cons hb rest ih =>
    intro j i hi
    cases i with
    | zero => simp [dispatchFrom]
    | succ k =>
      have hmem := ih (j + 1) k (Nat.lt_of_succ_lt_succ hi)
      have harith : j + (k + 1) = j + 1 + k := by omega
      rw [harith]
      exact List.mem_cons_of_mem _ (List.mem_append_right _ hmem)

/-- Without an originating id no reply is ever synthesized. -/
theorem dispatchFrom_no_id_no_reply (ty : String) (b : Bool) :
    ∀ (hs : List HBeh) (j : Nat) (r t m : String),
      DAct.sendReply r t m ∉ dispatchFrom ty none b j hs := by
  intro hs
  induction hs with
  | nil => intro j r t m h; simp [dispatchFrom] at h
  | cons hb rest ih =>
    intro j r t m hmem
    cases hb <;> simp [dispatchFrom, replyErrorActs] at hmem <;>
      exact ih (j + 1) r t m hmem

/-- With an id and an open socket, each failing handler synthesizes exactly
one error reply, and successful handlers none. -/
theorem dispatchFrom_reply_count (ty i0 : String) :
    ∀ (hs : List HBeh) (j : Nat),
      (dispatchFrom ty (some i0) true j hs).countP isReplyAct = hs.countP failing := by
  intro hs
  induction hs with
  | nil => intro j; rfl
  | cons hb rest ih =>
    intro j
    cases hb <;>
      simp [dispatchFrom, replyErrorActs, isReplyAct, failing, ih (j + 1),
        List.countP_cons, List.countP_append]

/-- Every synthesized reply goes to the originating envelope: its type is
the envelope's type suffixed with `:REPLY` and its `replyTo` is the
envelope's id. -/
theorem dispatchFrom_reply_shape (ty : String) (oid : Option String) (b : Bool) :
    ∀ (hs : List HBeh) (j : Nat) (r t m : String),
      DAct.sendReply r t m ∈ dispatchFrom ty oid b j hs →
      r = ty ++ ":REPLY" ∧ oid = some t := by
  intro hs
  induction hs with
  | nil => intro j r t m h; simp [dispatchFrom] at h
  | cons hb rest ih =>
    intro j r t m hmem
    cases hb with
    | okH =>
      simp [dispatchFrom] at hmem
      exact ih (j + 1) r t m hmem
    | throwsSync =>
      cases oid with
      | none =>
        simp [dispatchFrom, replyErrorActs] at hmem
        exact ih (j + 1) r t m hmem
      | some i =>
        cases b with
        | false =>
          simp [dispatchFrom, replyErrorActs] at hmem
          exact ih (j + 1) r t m hmem
        | true =>
          simp [dispatchFrom, replyErrorActs] at hmem
          rcases hmem with h2 | h3
          · exact ⟨h2.1, by simp [h2.2.1]⟩
          · exact ih (j + 1) r t m h3
    | rejectsAsync mm =>
      cases oid with
      | none =>
        simp [dispatchFrom, replyErrorActs] at hmem
        exact ih (j + 1) r t m hmem
      | some i =>
        cases b with
        | false =>
          simp [dispatchFrom, replyErrorActs] at hmem
          exact ih (j + 1) r t m hmem
        | true =>
          simp [dispatchFrom, replyErrorActs] at hmem
          rcases hmem with h2 | h3
          · exact ⟨h2.1, by simp [h2.2.1]⟩
          · exact ih (j + 1) r t m h3

/-- C8: when a non-reply envelope is dispatched, every subscribed handler
is invoked even if another one throws; a thrown or rejected handler
exception synthesizes exactly one error reply back on the open socket if
and only if the envelope carried an id (each failing handler one reply,
addressed to that id with type `<type>:REPLY`), and with no id it is
swallowed without any reply. -/
theorem c8_handler_dispatch :
    (∀ (hs : List HBeh) (ty : String) (oid : Option String) (b : Bool) (i : Nat),
        i < hs.length → DAct.invoke i ∈ dispatchHandlers hs ty oid b)
    ∧ (∀ (hs : List HBeh) (ty : String) (b : Bool) (r t m : String),
        DAct.sendReply r t m ∉ dispatchHandlers hs ty none b)
    ∧ (∀ (hs : List HBeh) (ty i0 : String),
        (dispatchHandlers hs ty (some i0) true).countP isReplyAct = hs.countP failing)
    ∧ (∀ (hs : List HBeh) (ty : String) (oid : Option String) (b : Bool) (r t m : String),
        DAct.sendReply r t m ∈ dispatchHandlers hs ty oid b →
        r = ty ++ ":REPLY" ∧ oid = some t) := by
  refine ⟨fun hs ty oid b i hi => ?_, fun hs ty b r t m => dispatchFrom_no_id_no_reply ty b hs 0 r t m,
    fun hs ty i0 => dispatchFrom_reply_count ty i0 hs 0,
    fun hs ty oid b r t m h => dispatchFrom_reply_shape ty oid b hs 0 r t m h⟩
  have := dispatchFrom_invoke ty oid b hs 0 i hi
  simpa using this

/-- Witness for C8: two handlers, the first throwing: both are invoked and
exactly one reply is synthesized. -/
theorem c8_handler_dispatch_witness :
    DAct.invoke 1 ∈ dispatchHandlers [HBeh.throwsSync, HBeh.okH] "EVT" (some "a") true
      ∧ (dispatchHandlers [HBeh.throwsSync, HBeh.okH] "EVT" (some "a") true).countP isReplyAct
        = [HBeh.throwsSync, HBeh.okH].countP failing :=
  ⟨c8_handler_dispatch.1 [HBeh.throwsSync, HBeh.okH] "EVT" (some "a") true 1 (by decide),
   c8_handler_dispatch.2.2.1 [HBeh.throwsSync, HBeh.okH] "EVT" "a"⟩

/-- Keys after one JS property write. -/
theorem mem_keys_setField (k : String) (v : JVal) :
    ∀ (l : List (String × JVal)) (a : String),
      a ∈ fieldKeys (setField l k v) ↔ a ∈ fieldKeys l ∨ a = k := by
  intro l
  induction l with
  | nil => intro a; simp [setField, fieldKeys]
  | cons kv rest ih =>
    intro a
    obtain ⟨k1, v1⟩ := kv
    cases hk : (k1 == k) with
    | true =>
      have he : k1 = k := by simpa using hk
      subst he
      simp [setField, fieldKeys, List.mem_cons]
      tauto
    | false =>
      simp [setField, hk, fieldKeys, List.mem_cons, ih a]
      tauto

/-- A write under a different key does not change a lookup. -/
theorem lookupField_setField_ne (k k1 : String) (v : JVal) (hne : k ≠ k1) :
    ∀ l : List (String × JVal),
      lookupField (setField l k1 v) k = lookupField l k := by
  have hne1 : k1 ≠ k := fun h => hne h.symm
  intro l
  induction l with
  | nil => simp [setField, lookupField, hne1]
  | cons kv rest ih =>
    obtain ⟨k2, v2⟩ := kv
    cases hk : (k2 == k1) with
    | true =>
      have he : k2 = k1 := by simpa using hk
      subst he
      simp [setField, hk, lookupField, hne1]
    | false =>
      simp [setField, hk, lookupField, ih]

/-- Keys after `Object.assign`: union of target and source keys. -/
theorem mem_keys_objAssign :
    ∀ (src tgt : List (String × JVal)) (a : String),
      a ∈ fieldKeys (objAssign tgt src) ↔ a ∈ fieldKeys tgt ∨ a ∈ fieldKeys src := by
  intro src
  induction src with
  | nil => intro tgt a; simp [objAssign, fieldKeys]
  | cons kv rest ih =>
    intro tgt a
    obtain ⟨k, v⟩ := kv
    have hstep : objAssign tgt ((k, v) :: rest) = objAssign (setField tgt k v) rest := rfl
    rw [hstep, ih, mem_keys_setField]
    simp [fieldKeys, List.mem_cons]
    tauto

/-- `Object.assign` does not disturb a target key that the source lacks. -/
theorem lookup_objAssign_of_not_mem (k : String) :
    ∀ (src tgt : List (String × JVal)), k ∉ fieldKeys src →
      lookupField (objAssign tgt src) k = lookupField tgt k := by
  intro src
  induction src with
  | nil => intro tgt _; rfl
  | cons kv rest ih =>
    intro tgt h
    obtain ⟨k1, v1⟩ := kv
    have hk : k ≠ k1 ∧ k ∉ fieldKeys rest := by
      simpa [fieldKeys, not_or] using h
    have hstep : objAssign tgt ((k1, v1) :: rest) = objAssign (setField tgt k1 v1) rest := rfl
    rw [hstep, ih _ hk.2, lookupField_setField_ne k k1 v1 hk.1]

/-- C6 counterexample: for the non-coordinator type `Sign` with the present
but falsy payload `false`, the encoder sends the full envelope, not the raw
payload — refuting the claim's "for every other outbound type the encoder
emits the raw payload unwrapped, or the full envelope (only) when the
envelope has no payload". -/
theorem c6_counterexample :
    encode ⟨"Sign", none, some (JVal.jbool false)⟩ ≠ JVal.jbool false := by
  intro h
  rw [show encode ⟨"Sign", none, some (JVal.jbool false)⟩
      = JVal.jobj [("type", JVal.jstr "Sign"), ("payload", JVal.jbool false)] from rfl] at h
  exact JVal.noConfusion h

/-- C6 amended: for the three coordinator-addressed types the encoder emits
the flattened frame `\x7bMethod: type, ...payload\x7d` — its keys are
exactly `Method` plus the payload's own keys (so no `type`/`id` members
unless the payload itself carries such fields), with `Method` holding the
envelope type whenever the payload does not override it; for every other
type it emits the raw payload when the payload is present and truthy, and
the full envelope when the payload is absent or falsy. -/
theorem c6_encode_amended :
    (∀ env : Envelope,
      (env.type = "Info_ManagerForEnroll" ∨ env.type = "Enrollment"
        ∨ env.type = "Info_Enrollment") →
      ∀ fs, env.payload = some (JVal.jobj fs) →
        encode env = JVal.jobj (objAssign [("Method", JVal.jstr env.type)] fs)
        ∧ (∀ a, a ∈ fieldKeys (objAssign [("Method", JVal.jstr env.type)] fs)
            ↔ a = "Method" ∨ a ∈ fieldKeys fs)
        ∧ ("Method" ∉ fieldKeys fs →
            lookupField (objAssign [("Method", JVal.jstr env.type)] fs) "Method"
              = some (JVal.jstr env.type)))
    ∧ (∀ env : Envelope,
        env.type ≠ "Info_ManagerForEnroll" → env.type ≠ "Enrollment" →
        env.type ≠ "Info_Enrollment" →
        (∀ p, env.payload = some p → truthyVal p = true → encode env = p)
        ∧ (env.payload = none → encode env = envelopeJVal env)
        ∧ (∀ p, env.payload = some p → truthyVal p = false →
            encode env = envelopeJVal env)) := by
  constructor
  · intro env htype fs hpl
    have hcond : (env.type == "Info_ManagerForEnroll" || env.type == "Enrollment"
        || env.type == "Info_Enrollment") = true := by
      rcases htype with h | h | h <;> simp [h]
    refine ⟨?_, ?_, ?_⟩
    · simp [encode, hcond, hpl, encodePayloadFields, truthyVal, truthyOpt, assignFields]
    · intro a
      rw [mem_keys_objAssign]
      simp [fieldKeys]
    · intro hm
      rw [lookup_objAssign_of_not_mem "Method" fs _ hm]
      rfl
  · intro env h1 h2 h3
    have hcond : (env.type == "Info_ManagerForEnroll" || env.type == "Enrollment"
        || env.type == "Info_Enrollment") = false := by
      simp [h1, h2, h3]
    refine ⟨?_, ?_, ?_⟩
    · intro p hp htr
      simp [encode, hcond, hp, htr]
    · intro hp
      simp [encode, hcond, hp]
    · intro p hp htr
      simp [encode, hcond, hp, htr]

/-- Witness for C6: `Enrollment` with payload `\x7bName: "n"\x7d` flattens
with a `Method` key, and `Sign` with a truthy payload sends it raw. -/
theorem c6_encode_amended_witness :
    encode ⟨"Enrollment", some "id9", some (JVal.jobj [("Name", JVal.jstr "n")])⟩
        = JVal.jobj (objAssign [("Method", JVal.jstr "Enrollment")] [("Name", JVal.jstr "n")])
      ∧ encode ⟨"Sign", none, some (JVal.jobj [("Data", JVal.jstr "d")])⟩
        = JVal.jobj [("Data", JVal.jstr "d")] := by
  constructor
  · exact (c6_encode_amended.1 ⟨"Enrollment", some "id9", some (JVal.jobj [("Name", JVal.jstr "n")])⟩
      (Or.inr (Or.inl rfl)) [("Name", JVal.jstr "n")] rfl).1
  · exact (c6_encode_amended.2 ⟨"Sign", none, some (JVal.jobj [("Data", JVal.jstr "d")])⟩
      (by decide) (by decide) (by decide)).1 (JVal.jobj [("Data", JVal.jstr "d")]) rfl rfl

/-- For a non-null parsed value the unguarded property access succeeds and
agrees with optional chaining. -/
theorem getField_ok (msg : JVal) (h : msg ≠ JVal.jnull) (k : String) :
    getField msg k = Except.ok (getFieldOpt msg k) := by
  cases msg <;> first | rfl | exact absurd rfl h

/-- The object guard in front of rule 1 changes nothing: a non-object value
has no `ParticipantsEnrolled` property, so the loose `== 0` test is already
false on it. -/
theorem guard_collapse (msg : JVal) :
    (truthyVal msg && typeofIsObject msg
        && looseEqZero (getFieldOpt msg "ParticipantsEnrolled"))
      = looseEqZero (getFieldOpt msg "ParticipantsEnrolled") := by
  cases msg <;> simp [truthyVal, truthyOpt, typeofIsObject, getFieldOpt, looseEqZero]

/-- On every non-null tolerantly-parsed value, the source decoder equals
the spec's nine-rule chain with rule 1 loose (`== 0`) and rule 7 excluding
the whole `SUCCESS.SIGNATURE_` family. -/
theorem decodeCore_eq_specLoose (msg : JVal) (h : msg ≠ JVal.jnull) :
    decodeCore msg = Except.ok (specClassifyLoose msg) := by
  unfold decodeCore specClassifyLoose specRules
  rw [guard_collapse, getField_ok msg h]
  cases hz : looseEqZero (getFieldOpt msg "ParticipantsEnrolled") with
  | true => simp [hz]
  | false =>
    simp only [hz, Bool.false_eq_true, if_false, Except.map]
    refine congrArg Except.ok ?_
    unfold classifyRest
    congr 1
    congr 1
    cases h4a : (jsToUpper (msgText msg) == "SUCCESS.SIGNATURE_ADDED") <;>
      cases h4b : (jsToUpper (msgText msg) == "SUCCESS.SIGNATURE_ENDED") <;>
      simp [h4a, h4b]

/-- C2 counterexample: on the frame `\x7b"ParticipantsEnrolled": false\x7d`
the decoder returns ManagerInfo — the source tests `ParticipantsEnrolled == 0`
with loose equality, so `false` matches — while the claim's rule 1 with
strict `=== 0` matches nothing and its chain ends at Unknown. The decoder
therefore does not implement the nine rules as literally stated. -/
theorem c2_counterexample :
    decodeCore (JVal.jobj [("ParticipantsEnrolled", JVal.jbool false)])
      ≠ Except.ok (specClassifyStrict (JVal.jobj [("ParticipantsEnrolled", JVal.jbool false)])) := by
  intro h
  rw [show decodeCore (JVal.jobj [("ParticipantsEnrolled", JVal.jbool false)])
        = Except.ok ⟨"MANAGER_INFO", JVal.jobj [("ParticipantsEnrolled", JVal.jbool false)]⟩
      from rfl,
    show specClassifyStrict (JVal.jobj [("ParticipantsEnrolled", JVal.jbool false)])
        = ⟨"UNKNOWN", JVal.jobj [("ParticipantsEnrolled", JVal.jbool false)]⟩ from rfl] at h
  injection h with h2
  exact absurd (congrArg WsEvent.type h2) (by decide)

/-- C2 amended: on every frame whose tolerant parse is not null, the
decoder applies the nine §4.2 rules in the stated priority order with first
match winning, with rule 1 testing loose equality (`ParticipantsEnrolled == 0`)
and rule 7 excluding every message text starting with `SUCCESS.SIGNATURE_`
(frames parsing to null make the decoder throw instead, cf. C10); all eight
golden inputs map to the stated tags. -/
theorem c2_classifier_amended :
    (∀ msg : JVal, msg ≠ JVal.jnull →
      decodeCore msg = Except.ok (specClassifyLoose msg))
    ∧ (∀ parse : String → Option JVal,
        parse "\x7b\"ParticipantsEnrolled\":0\x7d"
            = some (JVal.jobj [("ParticipantsEnrolled", JVal.jnum 0)]) →
        (decode parse "\x7b\"ParticipantsEnrolled\":0\x7d").map WsEvent.type
          = Except.ok "MANAGER_INFO")
    ∧ (∀ parse : String → Option JVal,
        parse "\x7b\"ParticipantsEnrolled\":3\x7d"
            = some (JVal.jobj [("ParticipantsEnrolled", JVal.jnum 3)]) →
        (decode parse "\x7b\"ParticipantsEnrolled\":3\x7d").map WsEvent.type
          = Except.ok "ENROLLMENT_STATUS")
    ∧ (∀ parse : String → Option JVal, parse "SUCCESS.ENROLL" = none →
        (decode parse "SUCCESS.ENROLL").map WsEvent.type
          = Except.ok "ENROLLMENT_RESULT")
    ∧ (∀ parse : String → Option JVal, parse "SUCCESS.SIGNATURE_ADDED" = none →
        (decode parse "SUCCESS.SIGNATURE_ADDED").map WsEvent.type
          = Except.ok "SIGN_RESULT")
    ∧ (∀ parse : String → Option JVal,
        parse "ab01ab01ab01ab01ab01ab01ab01ab01ab01ab01ab01ab01ab01ab01ab01ab01" = none →
        (decode parse "ab01ab01ab01ab01ab01ab01ab01ab01ab01ab01ab01ab01ab01ab01ab01ab01").map
            WsEvent.type
          = Except.ok "SIGN_RESULT")
    ∧ (∀ parse : String → Option JVal,
        parse "\x7b\"SerialNumber\":\"ABC123\"\x7d"
            = some (JVal.jobj [("SerialNumber", JVal.jstr "ABC123")]) →
        (decode parse "\x7b\"SerialNumber\":\"ABC123\"\x7d").map WsEvent.type
          = Except.ok "SUCCESS.PIN_SERIAL")
    ∧ (∀ parse : String → Option JVal, parse "ERROR.WRONG_PIN" = none →
        (decode parse "ERROR.WRONG_PIN").map WsEvent.type
          = Except.ok "ERROR.WRONG_PIN")
    ∧ (∀ parse : String → Option JVal,
        parse "\x7b\"foo\":\"bar\"\x7d" = some (JVal.jobj [("foo", JVal.jstr "bar")]) →
        (decode parse "\x7b\"foo\":\"bar\"\x7d").map WsEvent.type
          = Except.ok "UNKNOWN") := by
  refine ⟨decodeCore_eq_specLoose, ?_, ?_, ?_, ?_, ?_, ?_, ?_, ?_⟩ <;>
    (intro parse h; unfold decode decodeNormalize; rw [h]; rfl)

/-- Witness for C2 amended: the equivalence at the Unknown golden input and
the bare-string SUCCESS.ENROLL golden case under a concrete parse oracle. -/
theorem c2_classifier_amended_witness :
    decodeCore (JVal.jobj [("foo", JVal.jstr "bar")])
        = Except.ok (specClassifyLoose (JVal.jobj [("foo", JVal.jstr "bar")]))
      ∧ (decode (fun _ => none) "SUCCESS.ENROLL").map WsEvent.type
        = Except.ok "ENROLLMENT_RESULT" :=
  ⟨c2_classifier_amended.1 (JVal.jobj [("foo", JVal.jstr "bar")]) (fun hh => JVal.noConfusion hh),
   c2_classifier_amended.2.2.2.1 (fun _ => none) rfl⟩

/-- The pending-table invariant holds in the constructor state. -/
theorem inv_init (a : Bool) (mx : Option Nat) (hb : Nat) : OSInv (initOS a mx hb) := by
  refine ⟨rfl, List.nodup_nil, ?_, ?_, List.nodup_nil, ?_, ?_⟩
  · intro id hid; exact absurd hid (List.not_mem_nil id)
  · intro id hid; exact absurd hid (List.not_mem_nil id)
  · intro id h1 h2
    rw [show (initOS a mx hb).idCounter = 0 from rfl] at h2
    omega
  · intro hne; exact absurd rfl hne

/-- The invariant transports along steps that leave the pending table,
timers, settlement log and id counter untouched. -/
theorem inv_transport (s t : OSState) (h : OSInv s)
    (hp : t.pending = s.pending) (ht : t.activeTimers = s.activeTimers)
    (hs : t.settled = s.settled) (hi : t.idCounter = s.idCounter)
    (hconn : t.pending ≠ [] → t.connected = true) : OSInv t := by
  have hsid : settledIds t = settledIds s := by simp [settledIds, hs]
  refine ⟨?_, ?_, ?_, ?_, ?_, ?_, hconn⟩
  · rw [ht, hp, h.timers_eq]
  · rw [hp]; exact h.pending_nodup
  · intro id hid; rw [hp] at hid; rw [hi]; exact h.pending_issued id hid
  · intro id hid; rw [hsid] at hid; rw [hi]; exact h.settled_issued id hid
  · rw [hsid]; exact h.settled_nodup
  · intro id h1 h2; rw [hp, hsid]; rw [hi] at h2; exact h.mem_iff id h1 h2

/-- The invariant is preserved by `request`. -/
theorem inv_req (s : OSState) (hc : s.connected = true) (h : OSInv s) :
    OSInv (reqStep s) := by
  have hfresh : s.idCounter + 1 ∉ s.pending := by
    intro hmem
    exact absurd (h.pending_issued _ hmem).2 (by omega)
  have hfreshS : s.idCounter + 1 ∉ settledIds s := by
    intro hmem
    exact absurd (h.settled_issued _ hmem).2 (by omega)
  refine ⟨?_, ?_, ?_, ?_, ?_, ?_, fun _ => hc⟩
  · show s.activeTimers ++ [s.idCounter + 1] = s.pending ++ [s.idCounter + 1]
    rw [h.timers_eq]
  · refine List.Nodup.append h.pending_nodup (List.nodup_singleton _) ?_
    intro a ha ha1
    rw [List.mem_singleton] at ha1
    exact hfresh (ha1 ▸ ha)
  · intro id hid
    rcases List.mem_append.mp hid with hold | hnew
    · obtain ⟨h1, h2⟩ := h.pending_issued id hold
      exact ⟨h1, by simp [reqStep]; omega⟩
    · rw [List.mem_singleton] at hnew
      subst hnew
      exact ⟨by omega, by simp [reqStep]⟩
  · intro id hid
    obtain ⟨h1, h2⟩ := h.settled_issued id hid
    exact ⟨h1, by simp [reqStep]; omega⟩
  · exact h.settled_nodup
  · intro id h1 h2
    show id ∈ s.pending ++ [s.idCounter + 1] ↔ id ∉ settledIds s
    by_cases hid : id = s.idCounter + 1
    · subst hid
      simp only [List.mem_append, List.mem_singleton, or_true, true_iff]
      exact hfreshS
    · have h2' : id ≤ s.idCounter := by
        have : id ≤ s.idCounter + 1 := h2
        omega
      rw [List.mem_append, List.mem_singleton]
      simp only [hid, or_false]
      exact h.mem_iff id h1 h2'

/-- The invariant is preserved by settling one pending id (reply or
timeout): the entry is erased, its timer disarmed, the settlement logged. -/
theorem inv_settle (s : OSState) (id : Nat) (k : Settle) (hmem : id ∈ s.pending)
    (h : OSInv s) :
    OSInv { s with pending := s.pending.erase id,
                   activeTimers := s.activeTimers.erase id,
                   settled := s.settled ++ [(id, k)] } := by
  obtain ⟨hb1, hb2⟩ := h.pending_issued id hmem
  have hnotset : id ∉ settledIds s := (h.mem_iff id hb1 hb2).mp hmem
  have hsid : settledIds { s with pending := s.pending.erase id,
                                  activeTimers := s.activeTimers.erase id,
                                  settled := s.settled ++ [(id, k)] }
      = settledIds s ++ [id] := by
    simp [settledIds]
  refine ⟨?_, ?_, ?_, ?_, ?_, ?_, ?_⟩
  · show s.activeTimers.erase id = s.pending.erase id
    rw [h.timers_eq]
  · exact h.pending_nodup.erase id
  · intro j hj
    exact h.pending_issued j (List.mem_of_mem_erase hj)
  · intro j hj
    rw [hsid] at hj
    rcases List.mem_append.mp hj with hold | hnew
    · exact h.settled_issued j hold
    · rw [List.mem_singleton] at hnew
      subst hnew
      exact ⟨hb1, hb2⟩
  · rw [hsid]
    refine List.Nodup.append h.settled_nodup (List.nodup_singleton _) ?_
    intro a ha ha1
    rw [List.mem_singleton] at ha1
    exact hnotset (ha1 ▸ ha)
  · intro j h1 h2
    rw [hsid]
    show j ∈ s.pending.erase id ↔ j ∉ settledIds s ++ [id]
    rw [h.pending_nodup.mem_erase_iff, List.mem_append, List.mem_singleton]
    constructor
    · rintro ⟨hne, hjp⟩
      have := (h.mem_iff j h1 h2).mp hjp
      intro hor
      rcases hor with hin | heq
      · exact this hin
      · exact hne heq
    · intro hnot
      have hns : j ∉ settledIds s := fun hin => hnot (Or.inl hin)
      have hne : j ≠ id := fun heq => hnot (Or.inr heq)
      exact ⟨hne, (h.mem_iff j h1 h2).mpr hns⟩
  · intro hne
    show s.connected = true
    refine h.conn_of_pending ?_
    intro hnil
    rw [hnil] at hne
    exact hne rfl

/-- The invariant is preserved by a timeout firing. -/
theorem inv_timeout (s : OSState) (id : Nat) (hid : id ∈ s.activeTimers)
    (h : OSInv s) : OSInv (timeoutFire s id) := by
  have hmem : id ∈ s.pending := by rw [← h.timers_eq]; exact hid
  exact inv_settle s id Settle.timeoutRej hmem h

/-- The invariant is preserved by the reply branch of `_handleMessage`. -/
theorem inv_reply (s : OSState) (id : Nat) (isErr : Bool) (h : OSInv s) :
    OSInv (replyStep s id isErr) := by
  unfold replyStep
  split
  · exact inv_settle s id _ (by assumption) h
  · exact h

/-- The invariant holds after failing all pending requests, whatever
cosmetic fields (flags, counters, emitted events) the close handler also
touched. -/
theorem inv_closed_core (s : OSState) (h : OSInv s) (t : OSState)
    (hp : t.pending = [])
    (ht : t.activeTimers = s.activeTimers.filter (fun x => !(s.pending.contains x)))
    (hs : t.settled = s.settled ++ s.pending.map (fun id => (id, Settle.closeRej)))
    (hi : t.idCounter = s.idCounter) : OSInv t := by
  have htimers : t.activeTimers = [] := by
    rw [ht, h.timers_eq]
    refine List.filter_eq_nil_iff.mpr ?_
    intro a ha
    simp [List.contains, ha]
  have hsid : settledIds t = settledIds s ++ s.pending := by
    simp only [settledIds, hs, List.map_append, List.map_map]
    rw [show (Prod.fst ∘ fun i : Nat => (i, Settle.closeRej)) = fun i : Nat => i from rfl]
    rw [List.map_id']
  refine ⟨?_, ?_, ?_, ?_, ?_, ?_, ?_⟩
  · rw [htimers, hp]
  · rw [hp]; exact List.nodup_nil
  · intro id hid; rw [hp] at hid; exact absurd hid (List.not_mem_nil id)
  · intro id hid
    rw [hsid] at hid
    rw [hi]
    rcases List.mem_append.mp hid with hold | hnew
    · exact h.settled_issued id hold
    · exact h.pending_issued id hnew
  · rw [hsid]
    refine List.Nodup.append h.settled_nodup h.pending_nodup ?_
    intro a ha hap
    obtain ⟨h1, h2⟩ := h.pending_issued a hap
    exact (h.mem_iff a h1 h2).mp hap ha
  · intro id h1 h2
    rw [hp, hsid]
    rw [hi] at h2
    simp only [List.not_mem_nil, false_iff, not_not, List.mem_append]
    by_cases hidp : id ∈ s.pending
    · exact Or.inr hidp
    · refine Or.inl ?_
      by_contra hns
      exact hidp ((h.mem_iff id h1 h2).mpr hns)
  · intro hne; rw [hp] at hne; exact absurd rfl hne

/-- The fields of the close handler's successor state. -/
theorem closeStep_fst (s : OSState) :
    (closeStep s).1.pending = (if s.connected then [] else s.pending)
    ∧ (closeStep s).1.activeTimers
        = (if s.connected then s.activeTimers.filter (fun x => !(s.pending.contains x))
           else s.activeTimers)
    ∧ (closeStep s).1.settled
        = (if s.connected then s.settled ++ s.pending.map (fun id => (id, Settle.closeRej))
           else s.settled)
    ∧ (closeStep s).1.idCounter = s.idCounter
    ∧ (closeStep s).1.connected = false := by
  unfold closeStep failAllPending scheduleReconnect
  cases s.connected <;> cases s.autoReconnect <;>
    simp [atMaxReconnects] <;> split <;> simp

/-- The invariant is preserved by the close handler. -/
theorem inv_close (s : OSState) (h : OSInv s) : OSInv (closeStep s).1 := by
  obtain ⟨hp, ht, hs, hi, hcf⟩ := closeStep_fst s
  cases hc : s.connected with
  | true =>
    rw [hc] at hp ht hs
    exact inv_closed_core s h _ (by simpa using hp) (by simpa using ht)
      (by simpa using hs) hi
  | false =>
    have hpe : s.pending = [] := by
      by_contra hne
      rw [h.conn_of_pending hne] at hc
      exact Bool.noConfusion hc
    rw [hc] at hp ht hs
    simp only [if_neg, Bool.false_eq_true, not_false_iff] at hp ht hs
    refine inv_transport s _ h hp ht hs hi ?_
    intro hne
    rw [hp, hpe] at hne
    exact absurd rfl hne

/-- The invariant is preserved by `ws.onopen`. -/
theorem inv_open (s : OSState) (h : OSInv s) : OSInv (openStep s) := by
  have hfields : (openStep s).pending = s.pending
      ∧ (openStep s).activeTimers = s.activeTimers
      ∧ (openStep s).settled = s.settled
      ∧ (openStep s).idCounter = s.idCounter := by
    unfold openStep startHeartbeat
    split <;> exact ⟨rfl, rfl, rfl, rfl⟩
  exact inv_transport s _ h hfields.1 hfields.2.1 hfields.2.2.1 hfields.2.2.2
    (fun _ => (openStep_parts s).1)

/-- The invariant is preserved by `ws.onerror`. -/
theorem inv_error (s : OSState) (h : OSInv s) : OSInv (errorStep s) :=
  inv_transport s _ h rfl rfl rfl rfl
    (fun hne => h.conn_of_pending (by simpa using hne))

/-- The invariant is preserved by a `connect()` call. -/
theorem inv_connect (s : OSState) (urlFails ctorThrows : Bool) (h : OSInv s) :
    OSInv (connectAttempt s urlFails ctorThrows) := by
  cases urlFails <;> cases ctorThrows <;>
    exact inv_transport s _ h rfl rfl rfl rfl
      (fun hne => h.conn_of_pending (by simpa using hne))

/-- Every reachable socket state satisfies the pending-table invariant. -/
theorem os_inv {s : OSState} (h : OSReachable s) : OSInv s := by
  induction h with
  | init a mx hb => exact inv_init a mx hb
  | step _ hstep ih =>
    cases hstep with
    | request hc => exact inv_req _ hc ih
    | timeout id hid => exact inv_timeout _ id hid ih
    | reply id isErr => exact inv_reply _ id isErr ih
    | close => exact inv_close _ ih
    | openEvt => exact inv_open _ ih
    | errorEvt => exact inv_error _ ih
    | connectCall uf ct => exact inv_connect _ uf ct ih

/-- C1: in every reachable socket state, every settlement path (matching
reply, timeout, connection close) fires at most once per request id
(settlement log has no duplicate ids); an issued id sits in the pending map
exactly until it settles — so the map deletion happens exactly once and,
since the armed-timer set always coincides with the pending map, the timer
is cancelled or consumed exactly once as well, while an unsettled request
always keeps an armed timer and so cannot be left unresolved; and once all
issued requests are settled the pending map is empty again, i.e. back at
its initial (pre-call) size for any number of concurrent requests. -/
theorem c1_request_lifecycle (s : OSState) (h : OSReachable s) :
    (settledIds s).Nodup
    ∧ (∀ id ∈ settledIds s, 1 ≤ id ∧ id ≤ s.idCounter)
    ∧ (∀ id, 1 ≤ id → id ≤ s.idCounter → (id ∈ s.pending ↔ id ∉ settledIds s))
    ∧ s.activeTimers = s.pending
    ∧ ((∀ id, 1 ≤ id → id ≤ s.idCounter → id ∈ settledIds s) → s.pending = []) := by
  have hinv := os_inv h
  refine ⟨hinv.settled_nodup, hinv.settled_issued, hinv.mem_iff, hinv.timers_eq, ?_⟩
  intro hall
  cases hpe : s.pending with
  | nil => rfl
  | cons a rest =>
    have ha : a ∈ s.pending := by rw [hpe]; exact List.mem_cons_self a rest
    obtain ⟨h1, h2⟩ := hinv.pending_issued a ha
    exact absurd (hall a h1 h2) ((hinv.mem_iff a h1 h2).mp ha)

/-- Witness for C1: open, issue one request, settle it by a matching reply —
the settlement log is duplicate-free and the pending map is empty again. -/
theorem c1_request_lifecycle_witness :
    (settledIds (replyStep (reqStep (openStep (initOS true none 0))) 1 false)).Nodup
      ∧ (replyStep (reqStep (openStep (initOS true none 0))) 1 false).pending = [] := by
  have hreach : OSReachable (replyStep (reqStep (openStep (initOS true none 0))) 1 false) :=
    OSReachable.step
      (OSReachable.step
        (OSReachable.step (OSReachable.init true none 0) (OSStep.openEvt _))
        (OSStep.request _ rfl))
      (OSStep.reply _ 1 false)
  have h := c1_request_lifecycle _ hreach
  refine ⟨h.1, h.2.2.2.2 ?_⟩
  intro id h1 h2
  rw [show (replyStep (reqStep (openStep (initOS true none 0))) 1 false).idCounter = 1
    from rfl] at h2
  have hid : id = 1 := by omega
  subst hid
  rw [show settledIds (replyStep (reqStep (openStep (initOS true none 0))) 1 false)
      = [1] from rfl]
  exact List.mem_singleton.mpr rfl

/-- C4: when the socket closes with requests outstanding, the close handler
empties the pending table, and its side effects are exactly: the
`disconnected` event, then one rejection per pending request — all with the
single error `socket closed` — and only then (possibly) the scheduling of a
reconnect; in particular every rejection precedes any reconnect scheduling,
the state a scheduled reconnect will observe has an empty pending table,
and the close path sends nothing on the wire (no implicit retry of the
failed requests). -/
theorem c4_close_rejects (s : OSState) (h : OSReachable s) (hne : s.pending ≠ []) :
    (closeStep s).1.pending = []
    ∧ (closeStep s).2
        = Action.emitEvt "disconnected"
          :: s.pending.map (fun id => Action.rejectPending id "socket closed")
          ++ (if s.autoReconnect
                && !atMaxReconnects s.maxReconnects s.reconnectAttempts then
                [Action.emitEvt "reconnecting", Action.scheduleConnect s.reconnectAttempts]
              else [])
    ∧ (∀ v : JVal, Action.sendFrame v ∉ (closeStep s).2) := by
  have hinv := os_inv h
  have hc : s.connected = true := hinv.conn_of_pending hne
  have hfst : (closeStep s).1.pending = [] := by
    rw [(closeStep_fst s).1, hc]
    rfl
  have hacts : (closeStep s).2
      = Action.emitEvt "disconnected"
        :: s.pending.map (fun id => Action.rejectPending id "socket closed")
        ++ (if s.autoReconnect
              && !atMaxReconnects s.maxReconnects s.reconnectAttempts then
              [Action.emitEvt "reconnecting", Action.scheduleConnect s.reconnectAttempts]
            else []) := by
    unfold closeStep scheduleReconnect
    rw [hc]
    cases har : s.autoReconnect <;>
      cases hmx : atMaxReconnects s.maxReconnects s.reconnectAttempts <;>
      simp [failAllPending, har, hmx]
  refine ⟨hfst, hacts, ?_⟩
  intro v hv
  rw [hacts] at hv
  rcases List.mem_cons.mp hv with h1 | h2
  · exact Action.noConfusion h1
  rcases List.mem_append.mp h2 with h3 | h4
  · obtain ⟨i, _, hmap⟩ := List.mem_map.mp h3
    exact Action.noConfusion hmap
  · by_cases hb : (s.autoReconnect
        && !atMaxReconnects s.maxReconnects s.reconnectAttempts) = true
    · rw [if_pos hb] at h4
      rcases List.mem_cons.mp h4 with h5 | h6
      · exact Action.noConfusion h5
      · rcases List.mem_cons.mp h6 with h7 | h8
        · exact Action.noConfusion h7
        · exact absurd h8 (List.not_mem_nil _)
    · rw [if_neg hb] at h4
      exact absurd h4 (List.not_mem_nil _)

/-- Witness for C4: a connected socket with one pending request; closing it
empties the table, rejects the request with `socket closed` before the
reconnect is scheduled, and sends nothing. -/
theorem c4_close_rejects_witness :
    (closeStep (reqStep (openStep (initOS true none 0)))).1.pending = []
      ∧ (closeStep (reqStep (openStep (initOS true none 0)))).2
        = [Action.emitEvt "disconnected", Action.rejectPending 1 "socket closed",
           Action.emitEvt "reconnecting", Action.scheduleConnect 0] := by
  have hreach : OSReachable (reqStep (openStep (initOS true none 0))) :=
    OSReachable.step
      (OSReachable.step (OSReachable.init true none 0) (OSStep.openEvt _))
      (OSStep.request _ rfl)
  have h := c4_close_rejects _ hreach (by decide)
  refine ⟨h.1, ?_⟩
  rw [h.2.1]
  rfl

end ColdWallet
